import Mathlib

set_option maxRecDepth 10000

/-!
Verification of the zfilexfer chunked file-transfer engine.

Shallow embedding of the Rust sources (`src/error.rs`, `src/file.rs`,
`src/arbitrator.rs`, `src/server.rs`).  Machine integers are modelled as
`Nat`/`Int` with explicit wrap-around where the source can overflow;
fallible operations return `Except`; the reactor's socket writes are
collected into explicit message lists.
-/

namespace ZFilexfer

/-- Error kinds of `src/error.rs` (`enum Error`).  External wrapper payloads
(czmq, io, json) are collapsed to their tag, which is all the core logic
inspects. -/
inductive Error where
  | ChunkFail
  | ChunkIndex
  | Czmq
  | FailChecksum
  | FileFail
  | InvalidFileOpts
  | InvalidFilePath
  | InvalidReply
  | InvalidRequest
  | Io
  | JsonEncoder
  | JsonDecoder
  | ModeRecv
  | ModeSend
  | UploadError (msg : String)
deriving DecidableEq

/-- The human-readable message of each error, from `impl fmt::Display for
Error` in `src/error.rs` (wrapped external errors format a prefix plus the
inner error; only the prefix is modelled). -/
def Error.message : Error → String
  | .ChunkFail => "Failed to save chunk to file"
  | .ChunkIndex => "Chunk index not in file"
  | .Czmq => "CZMQ error: "
  | .FailChecksum => "Uploaded file does not match expected CRC"
  | .FileFail => "Failed to upload file"
  | .InvalidFileOpts => "Invalid file options"
  | .InvalidFilePath => "Path does not exist or is not a file"
  | .InvalidReply => "Invalid reply"
  | .InvalidRequest => "Invalid request"
  | .Io => "IO error: "
  | .JsonEncoder => "JSON encoder error: "
  | .JsonDecoder => "JSON decoder error: "
  | .ModeRecv => "Struct is in wrong mode for receiving"
  | .ModeSend => "Struct is in wrong mode for sending"
  | .UploadError e => "Could not upload file: " ++ e

/-! ## CRC-64, `crc` crate semantics

`File::calc_crc` uses `crc64::Digest::new(crc64::ECMA)` from the 2016
`crc` crate: the reflected table algorithm with the reflected ECMA-182
polynomial `0xC96C5795D7870F42`, initial value `!0u64` and final xor
`!0u64`.  These parameters are pinned by the repository's own test
`test_calc_crc` (`src/file.rs`), whose asserted value is reproduced by the
first conjunct of the C1 theorem below. -/

/-- Reflected ECMA-182 polynomial, `crc64::ECMA` of the `crc` crate. -/
def crcPoly : Nat := 0xC96C5795D7870F42

/-- All-ones 64-bit word, `!0u64`. -/
def crcMask : Nat := 0xFFFFFFFFFFFFFFFF

/-- One bit-step of the reflected CRC table construction. -/
def crcBitStep (v : Nat) : Nat :=
  if v % 2 = 1 then (v >>> 1) ^^^ crcPoly else v >>> 1

/-- Table entry for byte `i` (`make_table` of the `crc` crate, computed on
demand instead of being cached). -/
def crcTableEntry (i : Nat) : Nat :=
  crcBitStep (crcBitStep (crcBitStep (crcBitStep
    (crcBitStep (crcBitStep (crcBitStep (crcBitStep i)))))))

/-- `update` step of the `crc` crate for one byte:
`value = table[(value ^ b) & 0xFF] ^ (value >> 8)`. -/
def crcStep (v b : Nat) : Nat :=
  crcTableEntry ((v ^^^ b) % 256) ^^^ (v >>> 8)

/-- `Digest::write`: fold the byte stream into the running value. -/
def crcUpdate (v : Nat) (data : List Nat) : Nat :=
  data.foldl crcStep v

/-- The checksum described by the spec: the 64-bit ECMA CRC of exactly the
given byte string (`Digest::new`, one `write` of the whole content,
`sum64`). -/
def crc64 (data : List Nat) : Nat :=
  crcUpdate crcMask data ^^^ crcMask

/-- The read/digest loop of `File::calc_crc` (`src/file.rs`).  The buffer
persists across reads; each successful `read` fills only a prefix of it,
but `digest.write(&buf)` hashes the whole buffer.  A read from a regular
file returns `min(bs, remaining)` bytes; a read of zero bytes ends the
loop (also immediately when the buffer has length zero).  The `fuel`
argument only makes the recursion structural: `content.length` suffices,
because every iteration with a non-empty buffer consumes at least one
content byte. -/
def calcCrcLoop (bs : Nat) : Nat → List Nat → List Nat → Nat → Nat
  | _, [], _, v => v
  | 0, _ :: _, _, v => v
  | fuel + 1, c :: cs, buf, v =>
    if bs = 0 then v
    else
      let r := (c :: cs).take bs
      let buf2 := r ++ buf.drop r.length
      calcCrcLoop bs fuel ((c :: cs).drop bs) buf2 (crcUpdate v buf2)

/-- `File::calc_crc` over a file holding `content`, streamed through a
buffer of `bs` bytes initialised to zero (the source fixes `bs = 1024`). -/
def calc_crc (bs : Nat) (content : List Nat) : Nat :=
  calcCrcLoop bs content.length content (List.replicate bs 0) crcMask ^^^ crcMask

/-- The byte content `"12345"` used by the repository's `test_calc_crc`. -/
def bytes12345 : List Nat := [49, 50, 51, 52, 53]

/-- `Digest::write` distributes over concatenation of byte streams. -/
theorem crcUpdate_append (v : Nat) (l1 l2 : List Nat) :
    crcUpdate v (l1 ++ l2) = crcUpdate (crcUpdate v l1) l2 :=
  List.foldl_append crcStep v l1 l2

/-- A single iteration decides `calc_crc` when the whole content fits in
one read: the digest then covers the content followed by the untouched
tail of the zero-initialised buffer. -/
theorem calcCrcLoop_single (bs fuel : Nat) (c : Nat) (cs buf : List Nat) (v : Nat)
    (hbs : bs ≠ 0) (hlen : (c :: cs).length ≤ bs) :
    calcCrcLoop bs (fuel + 1) (c :: cs) buf v
      = crcUpdate v ((c :: cs) ++ buf.drop (c :: cs).length) := by
  rw [calcCrcLoop]
  simp only [if_neg hbs, List.take_of_length_le hlen, List.drop_eq_nil_of_le hlen]
  rw [calcCrcLoop]

/-- `calc_crc` on a non-empty content that fits in the buffer. -/
theorem calc_crc_single (bs : Nat) (c : Nat) (cs : List Nat)
    (hbs : bs ≠ 0) (hlen : (c :: cs).length ≤ bs) :
    calc_crc bs (c :: cs)
      = crcUpdate crcMask ((c :: cs) ++ List.replicate (bs - (c :: cs).length) 0) ^^^ crcMask := by
  unfold calc_crc
  rw [show (c :: cs).length = cs.length + 1 from rfl]
  rw [calcCrcLoop_single bs cs.length c cs _ crcMask hbs (by simpa using hlen)]
  rw [List.drop_replicate]
  rfl

/-! Block-wise evaluation of the 1024-byte digest pass of `calc_crc` on
content `"12345"`.  The buffer is `"12345"` followed by 1019 zero bytes;
it is digested in 32-byte blocks because one kernel evaluation of the
whole kilobyte does not fit the elaborator. -/

/-- First 32 buffer bytes: the content plus 27 zero bytes. -/
theorem crcBlk0 : crcUpdate crcMask (bytes12345 ++ List.replicate 27 0) = 14294942244155889059 := by decide

/-- Zero block 1 of the digest pass. -/
theorem crcBlk1 : crcUpdate 14294942244155889059 (List.replicate 32 0) = 4577930259858770554 := by decide

/-- Zero block 2 of the digest pass. -/
theorem crcBlk2 : crcUpdate 4577930259858770554 (List.replicate 32 0) = 7940079446333892178 := by decide

/-- Zero block 3 of the digest pass. -/
theorem crcBlk3 : crcUpdate 7940079446333892178 (List.replicate 32 0) = 17469678025522530584 := by decide

/-- Zero block 4 of the digest pass. -/
theorem crcBlk4 : crcUpdate 17469678025522530584 (List.replicate 32 0) = 3832571155215141041 := by decide

/-- Zero block 5 of the digest pass. -/
theorem crcBlk5 : crcUpdate 3832571155215141041 (List.replicate 32 0) = 1189062964084947289 := by decide

/-- Zero block 6 of the digest pass. -/
theorem crcBlk6 : crcUpdate 1189062964084947289 (List.replicate 32 0) = 5187437858351302038 := by decide

/-- Zero block 7 of the digest pass. -/
theorem crcBlk7 : crcUpdate 5187437858351302038 (List.replicate 32 0) = 12178463754398482795 := by decide

/-- Zero block 8 of the digest pass. -/
theorem crcBlk8 : crcUpdate 12178463754398482795 (List.replicate 32 0) = 1766675780015916570 := by decide

/-- Zero block 9 of the digest pass. -/
theorem crcBlk9 : crcUpdate 1766675780015916570 (List.replicate 32 0) = 16144805618953183153 := by decide

/-- Zero block 10 of the digest pass. -/
theorem crcBlk10 : crcUpdate 16144805618953183153 (List.replicate 32 0) = 538831986525095910 := by decide

/-- Zero block 11 of the digest pass. -/
theorem crcBlk11 : crcUpdate 538831986525095910 (List.replicate 32 0) = 15164295119352653138 := by decide

/-- Zero block 12 of the digest pass. -/
theorem crcBlk12 : crcUpdate 15164295119352653138 (List.replicate 32 0) = 7426612380726378265 := by decide

/-- Zero block 13 of the digest pass. -/
theorem crcBlk13 : crcUpdate 7426612380726378265 (List.replicate 32 0) = 8563878867208202053 := by decide

/-- Zero block 14 of the digest pass. -/
theorem crcBlk14 : crcUpdate 8563878867208202053 (List.replicate 32 0) = 8270126066520080966 := by decide

/-- Zero block 15 of the digest pass. -/
theorem crcBlk15 : crcUpdate 8270126066520080966 (List.replicate 32 0) = 5688739223670595218 := by decide

/-- Zero block 16 of the digest pass. -/
theorem crcBlk16 : crcUpdate 5688739223670595218 (List.replicate 32 0) = 10282066338720669762 := by decide

/-- Zero block 17 of the digest pass. -/
theorem crcBlk17 : crcUpdate 10282066338720669762 (List.replicate 32 0) = 17634428411431285813 := by decide

/-- Zero block 18 of the digest pass. -/
theorem crcBlk18 : crcUpdate 17634428411431285813 (List.replicate 32 0) = 5558036451662557999 := by decide

/-- Zero block 19 of the digest pass. -/
theorem crcBlk19 : crcUpdate 5558036451662557999 (List.replicate 32 0) = 6442778160208334648 := by decide

/-- Zero block 20 of the digest pass. -/
theorem crcBlk20 : crcUpdate 6442778160208334648 (List.replicate 32 0) = 2691656626555918210 := by decide

/-- Zero block 21 of the digest pass. -/
theorem crcBlk21 : crcUpdate 2691656626555918210 (List.replicate 32 0) = 14216616364436908890 := by decide

/-- Zero block 22 of the digest pass. -/
theorem crcBlk22 : crcUpdate 14216616364436908890 (List.replicate 32 0) = 10060630917567092656 := by decide

/-- Zero block 23 of the digest pass. -/
theorem crcBlk23 : crcUpdate 10060630917567092656 (List.replicate 32 0) = 5826572221734140394 := by decide

/-- Zero block 24 of the digest pass. -/
theorem crcBlk24 : crcUpdate 5826572221734140394 (List.replicate 32 0) = 1101722588240286207 := by decide

/-- Zero block 25 of the digest pass. -/
theorem crcBlk25 : crcUpdate 1101722588240286207 (List.replicate 32 0) = 12768530154282044456 := by decide

/-- Zero block 26 of the digest pass. -/
theorem crcBlk26 : crcUpdate 12768530154282044456 (List.replicate 32 0) = 17191139004033566234 := by decide

/-- Zero block 27 of the digest pass. -/
theorem crcBlk27 : crcUpdate 17191139004033566234 (List.replicate 32 0) = 7962505566362896053 := by decide

/-- Zero block 28 of the digest pass. -/
theorem crcBlk28 : crcUpdate 7962505566362896053 (List.replicate 32 0) = 10864497978041328190 := by decide

/-- Zero block 29 of the digest pass. -/
theorem crcBlk29 : crcUpdate 10864497978041328190 (List.replicate 32 0) = 12627169248646779455 := by decide

/-- Zero block 30 of the digest pass. -/
theorem crcBlk30 : crcUpdate 12627169248646779455 (List.replicate 32 0) = 2147351755833743906 := by decide

/-- Zero block 31 of the digest pass. -/
theorem crcBlk31 : crcUpdate 2147351755833743906 (List.replicate 32 0) = 1704092551816229572 := by decide

/-- The 992 trailing zero bytes of the buffer, digested block by block. -/
theorem crcZeros : crcUpdate 14294942244155889059 (List.replicate 992 0) = 1704092551816229572 := by
  rw [show (992 : Nat) = 32 + 960 from rfl, List.replicate_add, crcUpdate_append, crcBlk1]
  rw [show (960 : Nat) = 32 + 928 from rfl, List.replicate_add, crcUpdate_append, crcBlk2]
  rw [show (928 : Nat) = 32 + 896 from rfl, List.replicate_add, crcUpdate_append, crcBlk3]
  rw [show (896 : Nat) = 32 + 864 from rfl, List.replicate_add, crcUpdate_append, crcBlk4]
  rw [show (864 : Nat) = 32 + 832 from rfl, List.replicate_add, crcUpdate_append, crcBlk5]
  rw [show (832 : Nat) = 32 + 800 from rfl, List.replicate_add, crcUpdate_append, crcBlk6]
  rw [show (800 : Nat) = 32 + 768 from rfl, List.replicate_add, crcUpdate_append, crcBlk7]
  rw [show (768 : Nat) = 32 + 736 from rfl, List.replicate_add, crcUpdate_append, crcBlk8]
  rw [show (736 : Nat) = 32 + 704 from rfl, List.replicate_add, crcUpdate_append, crcBlk9]
  rw [show (704 : Nat) = 32 + 672 from rfl, List.replicate_add, crcUpdate_append, crcBlk10]
  rw [show (672 : Nat) = 32 + 640 from rfl, List.replicate_add, crcUpdate_append, crcBlk11]
  rw [show (640 : Nat) = 32 + 608 from rfl, List.replicate_add, crcUpdate_append, crcBlk12]
  rw [show (608 : Nat) = 32 + 576 from rfl, List.replicate_add, crcUpdate_append, crcBlk13]
  rw [show (576 : Nat) = 32 + 544 from rfl, List.replicate_add, crcUpdate_append, crcBlk14]
  rw [show (544 : Nat) = 32 + 512 from rfl, List.replicate_add, crcUpdate_append, crcBlk15]
  rw [show (512 : Nat) = 32 + 480 from rfl, List.replicate_add, crcUpdate_append, crcBlk16]
  rw [show (480 : Nat) = 32 + 448 from rfl, List.replicate_add, crcUpdate_append, crcBlk17]
  rw [show (448 : Nat) = 32 + 416 from rfl, List.replicate_add, crcUpdate_append, crcBlk18]
  rw [show (416 : Nat) = 32 + 384 from rfl, List.replicate_add, crcUpdate_append, crcBlk19]
  rw [show (384 : Nat) = 32 + 352 from rfl, List.replicate_add, crcUpdate_append, crcBlk20]
  rw [show (352 : Nat) = 32 + 320 from rfl, List.replicate_add, crcUpdate_append, crcBlk21]
  rw [show (320 : Nat) = 32 + 288 from rfl, List.replicate_add, crcUpdate_append, crcBlk22]
  rw [show (288 : Nat) = 32 + 256 from rfl, List.replicate_add, crcUpdate_append, crcBlk23]
  rw [show (256 : Nat) = 32 + 224 from rfl, List.replicate_add, crcUpdate_append, crcBlk24]
  rw [show (224 : Nat) = 32 + 192 from rfl, List.replicate_add, crcUpdate_append, crcBlk25]
  rw [show (192 : Nat) = 32 + 160 from rfl, List.replicate_add, crcUpdate_append, crcBlk26]
  rw [show (160 : Nat) = 32 + 128 from rfl, List.replicate_add, crcUpdate_append, crcBlk27]
  rw [show (128 : Nat) = 32 + 96 from rfl, List.replicate_add, crcUpdate_append, crcBlk28]
  rw [show (96 : Nat) = 32 + 64 from rfl, List.replicate_add, crcUpdate_append, crcBlk29]
  rw [show (64 : Nat) = 32 + 32 from rfl, List.replicate_add, crcUpdate_append, crcBlk30]
  exact crcBlk31


/-- C1: the claim says `File::calc_crc` returns the ECMA-182 CRC of exactly
the file content, independently of the streaming buffer size.  The code
instead hashes the whole 1024-byte buffer on every read
(`digest.write(&buf)` ignores the byte count `read` returned), so the
checksum is the CRC of the content padded with the residue of the buffer.
This theorem evaluates the embedded code at the failing input, the
repository's own 5-byte test file `"12345"`: the 1024-byte-buffer result
is the padded CRC `16742651521893322043` (the value pinned by
`test_calc_crc` in `src/file.rs`), the CRC of the content itself is
`6748440630437108969`, and a 5-byte buffer returns the latter — so the
result is neither the content CRC nor buffer-size independent. -/
theorem calc_crc_hashes_whole_buffer :
    calc_crc 1024 bytes12345 = 16742651521893322043 ∧
    crc64 bytes12345 = 6748440630437108969 ∧
    calc_crc 1024 bytes12345 ≠ crc64 bytes12345 ∧
    calc_crc 5 bytes12345 = crc64 bytes12345 ∧
    calc_crc 5 bytes12345 ≠ calc_crc 1024 bytes12345 := by
  have h1024 : calc_crc 1024 bytes12345 = 16742651521893322043 := by
    have h := calc_crc_single 1024 49 [50, 51, 52, 53] (by decide) (by decide)
    rw [show bytes12345 = 49 :: [50, 51, 52, 53] from rfl, h]
    rw [show (1024 - (49 :: [50, 51, 52, 53]).length : Nat) = 27 + 992 from rfl]
    rw [List.replicate_add, ← List.append_assoc, crcUpdate_append,
        show ((49 :: [50, 51, 52, 53]) ++ List.replicate 27 0)
          = bytes12345 ++ List.replicate 27 0 from rfl,
        crcBlk0, crcZeros]
    decide
  have h5 : calc_crc 5 bytes12345 = crc64 bytes12345 := by decide
  have hcrc : crc64 bytes12345 = 6748440630437108969 := by decide
  refine ⟨h1024, hcrc, ?_, h5, ?_⟩
  · rw [h1024, hcrc]; decide
  · rw [h5, hcrc, h1024]; decide

/-! ## Arbitrator (`src/arbitrator.rs`)

`TimedChunk` carries the originating peer identity, the chunk index and
an optional start timestamp; only `timestamp.is_some()` is ever branched
on, so the timestamp is modelled as the Boolean `started`.  Pull frames
`router_id | "CHUNK" | index` written to the router socket are collected
as `(routerId, index)` pairs. -/

/-- An opaque peer routing identity (byte string). -/
abbrev RId := List Nat

/-- `struct TimedChunk` of `src/arbitrator.rs`; `started` stands for
`timestamp.is_some()`. -/
structure TimedChunk where
  routerId : RId
  index : Nat
  started : Bool
deriving DecidableEq

/-- The router-id and index of an entry, the data `release` matches on. -/
def TimedChunk.pair (c : TimedChunk) : RId × Nat := (c.routerId, c.index)

/-- `struct Arbitrator`: the insertion-ordered queue and the slot counter.
The sockets and the timer task carry no queue state and are omitted. -/
structure Arbitrator where
  queue : List TimedChunk
  slots : Nat
deriving DecidableEq

/-- The walk of `Arbitrator::request`: in insertion order, stop when the
slot counter is zero, skip started entries, and otherwise take a slot,
emit `router_id | "CHUNK" | index` and mark the entry started.  Returns
the remaining slots, the updated queue and the emitted pulls in order. -/
def requestGo : Nat → List TimedChunk → Nat × List TimedChunk × List (RId × Nat)
  | slots, [] => (slots, [], [])
  | slots, c :: rest =>
    if slots = 0 then (slots, c :: rest, [])
    else if c.started then
      let r := requestGo slots rest
      (r.1, c :: r.2.1, r.2.2)
    else
      let r := requestGo (slots - 1) rest
      (r.1, { c with started := true } :: r.2.1, (c.routerId, c.index) :: r.2.2)

/-- `Arbitrator::request`. -/
def Arbitrator.request (a : Arbitrator) : Arbitrator × List (RId × Nat) :=
  let r := requestGo a.slots a.queue
  (⟨r.2.1, r.1⟩, r.2.2)

/-- `Arbitrator::queue`: append a fresh (not started) `TimedChunk`, then
invoke `request`. -/
def Arbitrator.queueOp (a : Arbitrator) (rid : RId) (index : Nat) :
    Arbitrator × List (RId × Nat) :=
  Arbitrator.request ⟨a.queue ++ [⟨rid, index, false⟩], a.slots⟩

/-- The linear scan of `Arbitrator::release`: find the first entry whose
`(router_id, index)` matches and return it with the queue minus it. -/
def removeFirst : List TimedChunk → RId → Nat → Option (TimedChunk × List TimedChunk)
  | [], _, _ => none
  | c :: rest, rid, idx =>
    if c.routerId = rid ∧ c.index = idx then some (c, rest)
    else (removeFirst rest rid idx).map (fun r => (r.1, c :: r.2))

/-- `Arbitrator::release`: remove the first matching entry and return one
slot, then invoke `request`; if no entry matches, fail with `ChunkIndex`
leaving the queue and the slot counter untouched. -/
def Arbitrator.release (a : Arbitrator) (rid : RId) (index : Nat) :
    Except Error Unit × Arbitrator × List (RId × Nat) :=
  match removeFirst a.queue rid index with
  | none => (.error .ChunkIndex, a, [])
  | some r =>
    let q := Arbitrator.request ⟨r.2, a.slots + 1⟩
    (.ok (), q.1, q.2)

/-- One reactor-driven arbitrator operation: `queue` (on NEW seeding and
on chunk-failure retry) or `release` (on chunk success). -/
inductive Op where
  | queueOp (rid : RId) (index : Nat)
  | releaseOp (rid : RId) (index : Nat)
deriving DecidableEq

/-- Arbitrator state together with the pull frames emitted so far. -/
structure ArbRun where
  arb : Arbitrator
  trace : List (RId × Nat)
deriving DecidableEq

/-- Apply one operation, appending its emissions to the trace. -/
def stepOp (s : ArbRun) (op : Op) : ArbRun :=
  match op with
  | .queueOp rid i =>
    let r := s.arb.queueOp rid i
    ⟨r.1, s.trace ++ r.2⟩
  | .releaseOp rid i =>
    let r := s.arb.release rid i
    ⟨r.2.1, s.trace ++ r.2.2⟩

/-- Run a sequence of operations. -/
def runOps (s : ArbRun) (ops : List Op) : ArbRun :=
  ops.foldl stepOp s

/-- `Arbitrator::new(router, upload_slots)`: empty queue, slot counter at
the configured budget, nothing emitted yet. -/
def arbInit (max : Nat) : ArbRun :=
  ⟨⟨[], max⟩, []⟩

/-- The number of started `TimedChunk`s in a queue. -/
def countStarted (q : List TimedChunk) : Nat :=
  (q.filter (fun c => c.started)).length

/-- `countStarted` on a cons. -/
theorem countStarted_cons (c : TimedChunk) (q : List TimedChunk) :
    countStarted (c :: q) = (if c.started then 1 else 0) + countStarted q := by
  by_cases h : c.started = true <;>
    simp [countStarted, List.filter, h, Nat.add_comm]

/-- `countStarted` on an append. -/
theorem countStarted_append (q1 q2 : List TimedChunk) :
    countStarted (q1 ++ q2) = countStarted q1 + countStarted q2 := by
  simp [countStarted, List.filter_append]

/-- The admission walk conserves slots plus started entries. -/
theorem requestGo_slots (q : List TimedChunk) (slots : Nat) :
    (requestGo slots q).1 + countStarted (requestGo slots q).2.1
      = slots + countStarted q := by
  induction q generalizing slots with
  | nil => simp [requestGo]
  | cons c rest ih =>
    by_cases h0 : slots = 0
    · simp [requestGo, h0]
    · by_cases hs : c.started = true
      · simp only [requestGo, if_neg h0, if_pos hs]
        rw [countStarted_cons, countStarted_cons, if_pos hs]
        have := ih slots
        omega
      · simp only [requestGo, if_neg h0, if_neg hs]
        rw [countStarted_cons, countStarted_cons]
        have h1 : ({ c with started := true } : TimedChunk).started = true := rfl
        rw [if_pos h1, if_neg hs]
        have := ih (slots - 1)
        omega

/-- `request` conserves slots plus started entries. -/
theorem request_slots (a : Arbitrator) :
    (a.request).1.slots + countStarted (a.request).1.queue
      = a.slots + countStarted a.queue :=
  requestGo_slots a.queue a.slots

/-- A successful `removeFirst` splits the queue around the removed
entry, which matches the requested router-id and index. -/
theorem removeFirst_split (q : List TimedChunk) (rid : RId) (idx : Nat)
    (r : TimedChunk × List TimedChunk) (h : removeFirst q rid idx = some r) :
    (∃ pre post, q = pre ++ r.1 :: post ∧ r.2 = pre ++ post) ∧
    r.1.routerId = rid ∧ r.1.index = idx := by
  induction q generalizing r with
  | nil => simp [removeFirst] at h
  | cons c rest ih =>
    rw [removeFirst] at h
    by_cases hc : c.routerId = rid ∧ c.index = idx
    · rw [if_pos hc] at h
      cases h
      exact ⟨⟨[], rest, rfl, rfl⟩, hc.1, hc.2⟩
    · rw [if_neg hc] at h
      match hr : removeFirst rest rid idx with
      | none => rw [hr] at h; simp at h
      | some r0 =>
        rw [hr] at h
        simp only [Option.map] at h
        obtain ⟨⟨pre, post, h1, h2⟩, h3, h4⟩ := ih r0 hr
        cases h
        exact ⟨⟨c :: pre, post, by simp [h1], by simp [h2]⟩, h3, h4⟩

/-- Check that every successful release in an operation sequence removes a
started entry (in the reactor, a chunk is released only after its pull was
admitted and its write completed). -/
def goodOps (a : Arbitrator) : List Op → Bool
  | [] => true
  | .queueOp rid i :: rest => goodOps (a.queueOp rid i).1 rest
  | .releaseOp rid i :: rest =>
    match removeFirst a.queue rid i with
    | none => goodOps a rest
    | some r => r.1.started && goodOps (a.release rid i).2.1 rest

/-- Slot accounting is preserved by any good run. -/
theorem goodOps_inv (max : Nat) (ops : List Op) :
    ∀ (a : Arbitrator) (t : List (RId × Nat)), goodOps a ops = true →
    a.slots + countStarted a.queue = max →
    (runOps ⟨a, t⟩ ops).arb.slots + countStarted (runOps ⟨a, t⟩ ops).arb.queue = max := by
  induction ops with
  | nil => intro a t _ hi; exact hi
  | cons op rest ih =>
    intro a t hg hi
    match op with
    | .queueOp rid i =>
      rw [goodOps] at hg
      have hstep : runOps ⟨a, t⟩ (Op.queueOp rid i :: rest)
          = runOps ⟨(a.queueOp rid i).1, t ++ (a.queueOp rid i).2⟩ rest := rfl
      rw [hstep]
      apply ih _ _ hg
      have h2 := request_slots ⟨a.queue ++ [⟨rid, i, false⟩], a.slots⟩
      have h4 : countStarted (a.queue ++ [⟨rid, i, false⟩]) = countStarted a.queue := by
        rw [countStarted_append, countStarted_cons]
        simp [countStarted]
      show (Arbitrator.request ⟨a.queue ++ [⟨rid, i, false⟩], a.slots⟩).1.slots
          + countStarted (Arbitrator.request ⟨a.queue ++ [⟨rid, i, false⟩], a.slots⟩).1.queue
          = max
      rw [h2]
      show a.slots + countStarted (a.queue ++ [⟨rid, i, false⟩]) = max
      rw [h4]
      exact hi
    | .releaseOp rid i =>
      rw [goodOps] at hg
      match hr : removeFirst a.queue rid i with
      | none =>
        rw [hr] at hg
        have hstep : runOps ⟨a, t⟩ (Op.releaseOp rid i :: rest)
            = runOps ⟨a, t⟩ rest := by
          show runOps (stepOp _ _) rest = _
          simp [stepOp, Arbitrator.release, hr]
        rw [hstep]
        exact ih a t hg hi
      | some r =>
        rw [hr] at hg
        rw [Bool.and_eq_true] at hg
        obtain ⟨hst, hg⟩ := hg
        have hrel : (a.release rid i).2.1
            = (Arbitrator.request ⟨r.2, a.slots + 1⟩).1 := by
          simp [Arbitrator.release, hr]
        have hstep : runOps ⟨a, t⟩ (Op.releaseOp rid i :: rest)
            = runOps ⟨(a.release rid i).2.1, t ++ (a.release rid i).2.2⟩ rest := rfl
        rw [hstep]
        apply ih _ _ hg
        rw [hrel]
        have h2 := request_slots ⟨r.2, a.slots + 1⟩
        rw [h2]
        obtain ⟨⟨pre, post, hq, hq2⟩, _, _⟩ := removeFirst_split _ _ _ _ hr
        have hi2 : a.slots + (countStarted pre + (1 + countStarted post)) = max := by
          rw [hq, countStarted_append, countStarted_cons] at hi
          simpa [hst] using hi
        show a.slots + 1 + countStarted r.2 = max
        rw [hq2, countStarted_append]
        omega

/-- C4, counterexample: from a configured budget of 0 upload slots, the
sequence queue-then-release for one chunk is a legal sequence of queue
and release operations, yet it leaves `slots = 1` with no started entry —
outside `[0, configured_max] = [0, 0]` and different from
`configured_max - started = 0`.  `release` does not check that the entry
it removes was ever admitted, and unconditionally increments the
counter. -/
theorem arbitrator_slot_budget_cex :
    (runOps (arbInit 0) [Op.queueOp [97] 0, Op.releaseOp [97] 0]).arb.slots = 1 ∧
    countStarted ((runOps (arbInit 0) [Op.queueOp [97] 0, Op.releaseOp [97] 0]).arb.queue) = 0 := by
  decide

/-- C4, amended: in every state reachable from initialization with the
configured budget by queue and release operations in which each successful
release removes a started entry, the slot counter satisfies
`slots ∈ [0, configured_max]` and
`slots = configured_max - countStarted queue`. -/
theorem arbitrator_slot_budget (max : Nat) (ops : List Op)
    (h : goodOps (arbInit max).arb ops = true) :
    (runOps (arbInit max) ops).arb.slots ≤ max ∧
    (runOps (arbInit max) ops).arb.slots
      + countStarted (runOps (arbInit max) ops).arb.queue = max := by
  have h0 := goodOps_inv max ops (arbInit max).arb [] h (by simp [arbInit, countStarted])
  have h1 : (⟨(arbInit max).arb, []⟩ : ArbRun) = arbInit max := rfl
  rw [h1] at h0
  exact ⟨by omega, h0⟩

/-- C4 witness: budget 1, queue then release of one chunk is a good run
and ends with `slots = 1 = configured_max - 0`. -/
theorem arbitrator_slot_budget_witness :
    goodOps (arbInit 1).arb [Op.queueOp [97] 0, Op.releaseOp [97] 0] = true ∧
    ((runOps (arbInit 1) [Op.queueOp [97] 0, Op.releaseOp [97] 0]).arb.slots ≤ 1 ∧
     (runOps (arbInit 1) [Op.queueOp [97] 0, Op.releaseOp [97] 0]).arb.slots
       + countStarted ((runOps (arbInit 1) [Op.queueOp [97] 0, Op.releaseOp [97] 0]).arb.queue) = 1) :=
  ⟨by decide, arbitrator_slot_budget 1 [Op.queueOp [97] 0, Op.releaseOp [97] 0] (by decide)⟩

/-! ## Ordering of pull frames (C8)

Per-peer projections of emission traces and the invariant machinery for
the FIFO admission walk. -/

/-- The chunk indices addressed to one peer, in emission order. -/
def perPeer (rid : RId) (l : List (RId × Nat)) : List Nat :=
  (l.filter (fun p => decide (p.1 = rid))).map (fun p => p.2)

/-- The `(router_id, index)` pairs of a queue, in queue order. -/
def chunkPairs (q : List TimedChunk) : List (RId × Nat) :=
  q.map TimedChunk.pair

/-- Started entries precede unstarted ones: the shape `request` maintains,
since it always admits the earliest unstarted entries. -/
def Blocked (q : List TimedChunk) : Prop :=
  List.Pairwise (fun a b => b.started = true → a.started = true) q

/-- For each peer, indices strictly increase along the list. -/
def PeerSorted (l : List (RId × Nat)) : Prop :=
  ∀ rid, List.Pairwise (· < ·) (perPeer rid l)

/-- Every not-yet-started queue entry has an index above everything already
emitted to its peer. -/
def UnstartedAbove (trace : List (RId × Nat)) (q : List TimedChunk) : Prop :=
  ∀ c ∈ q, c.started = false → ∀ p ∈ trace, p.1 = c.routerId → p.2 < c.index

/-- `perPeer` distributes over append. -/
theorem perPeer_append (rid : RId) (l1 l2 : List (RId × Nat)) :
    perPeer rid (l1 ++ l2) = perPeer rid l1 ++ perPeer rid l2 := by
  simp [perPeer, List.filter_append]

/-- `perPeer` on a cons. -/
theorem perPeer_cons (rid : RId) (p : RId × Nat) (l : List (RId × Nat)) :
    perPeer rid (p :: l)
      = if p.1 = rid then p.2 :: perPeer rid l else perPeer rid l := by
  by_cases h : p.1 = rid <;> simp [perPeer, List.filter, h]

/-- `perPeer` preserves sublists. -/
theorem perPeer_sublist (rid : RId) (l1 l2 : List (RId × Nat)) (h : l1.Sublist l2) :
    (perPeer rid l1).Sublist (perPeer rid l2) :=
  List.Sublist.map _ (List.Sublist.filter _ h)

/-- `PeerSorted` passes to the tail. -/
theorem PeerSorted.tail (p : RId × Nat) (l : List (RId × Nat))
    (h : PeerSorted (p :: l)) : PeerSorted l := by
  intro rid
  have h2 := h rid
  rw [perPeer_cons] at h2
  by_cases hp : p.1 = rid
  · rw [if_pos hp] at h2; exact h2.tail
  · rwa [if_neg hp] at h2

/-- The head of a `PeerSorted` list is below every later element of the
same peer. -/
theorem PeerSorted.head_lt (p : RId × Nat) (l : List (RId × Nat))
    (h : PeerSorted (p :: l)) : ∀ q ∈ l, q.1 = p.1 → p.2 < q.2 := by
  intro q hq hrid
  have h2 := h p.1
  rw [perPeer_cons, if_pos rfl] at h2
  rw [List.pairwise_cons] at h2
  exact h2.1 q.2 (by
    simp only [perPeer, List.mem_map]
    exact ⟨q, List.mem_filter.2 ⟨hq, by simp [hrid]⟩, rfl⟩)

/-- `PeerSorted` restricts along sublists. -/
theorem PeerSorted.sublist (l1 l2 : List (RId × Nat)) (hs : l1.Sublist l2)
    (h : PeerSorted l2) : PeerSorted l1 :=
  fun rid => List.Pairwise.sublist (perPeer_sublist rid l1 l2 hs) (h rid)

/-- The admission walk does not change the `(router_id, index)` sequence
of the queue. -/
theorem requestGo_shape (q : List TimedChunk) :
    ∀ slots, chunkPairs (requestGo slots q).2.1 = chunkPairs q := by
  induction q with
  | nil => intro slots; rfl
  | cons c rest ih =>
    intro slots
    by_cases h0 : slots = 0
    · simp [requestGo, h0]
    · by_cases hs : c.started
      · simp only [requestGo, if_neg h0, if_pos hs, chunkPairs, List.map_cons]
        exact congrArg (fun l => c.pair :: l) (ih slots)
      · simp only [requestGo, if_neg h0, if_neg hs, chunkPairs, List.map_cons]
        exact congrArg (fun l => (c.routerId, c.index) :: l) (ih (slots - 1))

/-- `chunkPairs` on a cons. -/
theorem chunkPairs_cons (c : TimedChunk) (q : List TimedChunk) :
    chunkPairs (c :: q) = c.pair :: chunkPairs q := rfl

/-- The admission walk of `request` preserves the block shape, keeps every
unstarted entry above the extended trace, keeps the extended trace sorted
per peer, and emits only pairs present in the queue. -/
theorem requestGo_spec (q : List TimedChunk) :
    ∀ (slots : Nat) (trace : List (RId × Nat)),
    Blocked q →
    PeerSorted (chunkPairs q) →
    UnstartedAbove trace q →
    PeerSorted trace →
    Blocked (requestGo slots q).2.1 ∧
    UnstartedAbove (trace ++ (requestGo slots q).2.2) (requestGo slots q).2.1 ∧
    PeerSorted (trace ++ (requestGo slots q).2.2) ∧
    (∀ p ∈ (requestGo slots q).2.2, p ∈ chunkPairs q) := by
  induction q with
  | nil =>
    intro slots trace _ _ _ ht
    refine ⟨List.Pairwise.nil, ?_, ?_, ?_⟩
    · intro c hc
      exact absurd hc (List.not_mem_nil c)
    · simpa [requestGo] using ht
    · intro p hp
      simp [requestGo] at hp
  | cons c rest ih =>
    intro slots trace hb hq hu ht
    rw [Blocked, List.pairwise_cons] at hb
    obtain ⟨hb1, hb2⟩ := hb
    by_cases h0 : slots = 0
    · simp only [requestGo, if_pos h0]
      refine ⟨List.Pairwise.cons hb1 hb2, ?_, ?_, ?_⟩
      · simpa using hu
      · simpa using ht
      · intro p hp
        simp at hp
    · by_cases hs : c.started
      · simp only [requestGo, if_neg h0, if_pos hs]
        have hu2 : UnstartedAbove trace rest :=
          fun e he hf p hp hr => hu e (List.mem_cons_of_mem c he) hf p hp hr
        obtain ⟨ihb, ihu, iht, ihsub⟩ :=
          ih slots trace hb2 (PeerSorted.tail c.pair (chunkPairs rest) hq) hu2 ht
        refine ⟨List.Pairwise.cons (fun b _ _ => hs) ihb, ?_, iht, ?_⟩
        · intro e he hf p hp hr
          rcases List.mem_cons.1 he with rfl | he2
          · rw [hf] at hs; exact absurd hs (by simp)
          · exact ihu e he2 hf p hp hr
        · intro p hp
          exact List.mem_cons_of_mem _ (ihsub p hp)
      · simp only [requestGo, if_neg h0, if_neg hs]
        have hcs : c.started = false := by
          cases hcs2 : c.started
          · rfl
          · rw [hcs2] at hs; exact absurd rfl hs
        have hu2 : UnstartedAbove (trace ++ [c.pair]) rest := by
          intro e he hf p hp hr
          rcases List.mem_append.1 hp with hp1 | hp2
          · exact hu e (List.mem_cons_of_mem c he) hf p hp1 hr
          · have hpc : p = c.pair := by simpa using hp2
            subst hpc
            have hmem : e.pair ∈ chunkPairs rest := List.mem_map_of_mem TimedChunk.pair he
            exact PeerSorted.head_lt c.pair (chunkPairs rest) hq e.pair hmem hr.symm
        have ht2 : PeerSorted (trace ++ [c.pair]) := by
          intro rid
          rw [perPeer_append]
          rw [List.pairwise_append]
          refine ⟨ht rid, ?_, ?_⟩
          · rw [perPeer_cons]
            by_cases hr : c.pair.1 = rid <;> simp [hr, perPeer]
          · intro a ha b hbm
            rw [perPeer_cons] at hbm
            by_cases hr : c.pair.1 = rid
            · rw [if_pos hr] at hbm
              have hb0 : b = c.index := by simpa [perPeer] using hbm
              subst hb0
              simp only [perPeer, List.mem_map] at ha
              obtain ⟨p, hpf, rfl⟩ := ha
              have hpm := List.mem_filter.1 hpf
              have hp1 : p.1 = rid := by simpa using hpm.2
              exact hu c (List.mem_cons_self c rest) hcs p hpm.1 (by rw [hp1, ← hr]; rfl)
            · rw [if_neg hr] at hbm
              simp [perPeer] at hbm
        obtain ⟨ihb, ihu, iht, ihsub⟩ :=
          ih (slots - 1) (trace ++ [c.pair]) hb2
            (PeerSorted.tail c.pair (chunkPairs rest) hq) hu2 ht2
        have hassoc : (trace ++ [c.pair]) ++ (requestGo (slots - 1) rest).2.2
            = trace ++ ((c.routerId, c.index) :: (requestGo (slots - 1) rest).2.2) := by
          simp [TimedChunk.pair]
        refine ⟨List.Pairwise.cons (fun b _ _ => rfl) ihb, ?_, ?_, ?_⟩
        · intro e he hf p hp hr
          rcases List.mem_cons.1 he with rfl | he2
          · simp at hf
          · rw [← hassoc] at hp
            exact ihu e he2 hf p hp hr
        · rw [← hassoc]
          exact iht
        · intro p hp
          rcases List.mem_cons.1 hp with rfl | hp2
          · rw [chunkPairs_cons]
            exact List.mem_cons_self _ _
          · exact List.mem_cons_of_mem _ (ihsub p hp2)

/-- Invariant of an arbitrator run: the queue is started-entries-first, the
queue and the trace are per-peer strictly increasing, every unstarted
entry is above its peer trace, and queue entries and emissions all come
from the queueing history `hist`. -/
structure ArbInv (hist : List (RId × Nat)) (s : ArbRun) : Prop where
  blocked : Blocked s.arb.queue
  qsorted : PeerSorted (chunkPairs s.arb.queue)
  above : UnstartedAbove s.trace s.arb.queue
  tsorted : PeerSorted s.trace
  qhist : ∀ p ∈ chunkPairs s.arb.queue, p ∈ hist
  thist : ∀ p ∈ s.trace, p ∈ hist

/-- `request` re-establishes the invariant from its pre-state facts. -/
theorem request_inv (hist : List (RId × Nat)) (a : Arbitrator) (trace : List (RId × Nat))
    (hb : Blocked a.queue) (hq : PeerSorted (chunkPairs a.queue))
    (hu : UnstartedAbove trace a.queue) (ht : PeerSorted trace)
    (hqh : ∀ p ∈ chunkPairs a.queue, p ∈ hist) (hth : ∀ p ∈ trace, p ∈ hist) :
    ArbInv hist ⟨(a.request).1, trace ++ (a.request).2⟩ := by
  obtain ⟨ihb, ihu, iht, ihsub⟩ := requestGo_spec a.queue a.slots trace hb hq hu ht
  have hsh := requestGo_shape a.queue a.slots
  refine ⟨ihb, ?_, ihu, iht, ?_, ?_⟩
  · show PeerSorted (chunkPairs (requestGo a.slots a.queue).2.1)
    rw [hsh]; exact hq
  · show ∀ p ∈ chunkPairs (requestGo a.slots a.queue).2.1, p ∈ hist
    rw [hsh]; exact hqh
  · intro p hp
    rcases List.mem_append.1 hp with h1 | h2
    · exact hth p h1
    · exact hqh p (ihsub p h2)

/-- `queue` preserves the invariant when the queued index lies above every
index in the history for that peer. -/
theorem step_queue (hist : List (RId × Nat)) (s : ArbRun) (rid : RId) (i : Nat)
    (hinv : ArbInv hist s) (hnew : ∀ p ∈ hist, p.1 = rid → p.2 < i) :
    ArbInv ((rid, i) :: hist) (stepOp s (.queueOp rid i)) := by
  have hq1 : chunkPairs (s.arb.queue ++ [⟨rid, i, false⟩])
      = chunkPairs s.arb.queue ++ [(rid, i)] := by
    simp [chunkPairs, TimedChunk.pair]
  have hstep : stepOp s (.queueOp rid i)
      = ⟨(Arbitrator.request ⟨s.arb.queue ++ [⟨rid, i, false⟩], s.arb.slots⟩).1,
         s.trace ++ (Arbitrator.request ⟨s.arb.queue ++ [⟨rid, i, false⟩], s.arb.slots⟩).2⟩ :=
    rfl
  rw [hstep]
  refine request_inv ((rid, i) :: hist)
    ⟨s.arb.queue ++ [(⟨rid, i, false⟩ : TimedChunk)], s.arb.slots⟩ s.trace
    ?_ ?_ ?_ ?_ ?_ ?_
  · rw [Blocked, List.pairwise_append]
    refine ⟨hinv.blocked, List.pairwise_singleton _ _, ?_⟩
    intro a _ b hbm heq
    have hb2 : b = (⟨rid, i, false⟩ : TimedChunk) := by simpa using hbm
    rw [hb2] at heq
    simp at heq
  · intro r
    rw [hq1, perPeer_append, List.pairwise_append]
    refine ⟨hinv.qsorted r, ?_, ?_⟩
    · rw [perPeer_cons]
      by_cases hr : rid = r <;> simp [hr, perPeer]
    · intro a ha b hbm
      rw [perPeer_cons] at hbm
      by_cases hr : ((rid, i) : RId × Nat).1 = r
      · rw [if_pos hr] at hbm
        have hb0 : b = i := by simpa [perPeer] using hbm
        subst hb0
        simp only [perPeer, List.mem_map] at ha
        obtain ⟨p, hpf, rfl⟩ := ha
        have hpm := List.mem_filter.1 hpf
        have hp1 : p.1 = r := by simpa using hpm.2
        exact hnew p (hinv.qhist p hpm.1) (by rw [hp1, ← hr])
      · rw [if_neg hr] at hbm
        simp [perPeer] at hbm
  · intro e he hf p hp hr
    rcases List.mem_append.1 he with h1 | h2
    · exact hinv.above e h1 hf p hp hr
    · have he2 : e = (⟨rid, i, false⟩ : TimedChunk) := by simpa using h2
      subst he2
      exact hnew p (hinv.thist p hp) hr
  · exact hinv.tsorted
  · intro p hp
    rw [hq1] at hp
    rcases List.mem_append.1 hp with h1 | h2
    · exact List.mem_cons_of_mem _ (hinv.qhist p h1)
    · have hp2 : p = (rid, i) := by simpa using h2
      rw [hp2]
      exact List.mem_cons_self _ _
  · intro p hp
    exact List.mem_cons_of_mem _ (hinv.thist p hp)

/-- `release` preserves the invariant (removal keeps every ordering fact,
and the follow-up `request` is covered by `request_inv`). -/
theorem step_release (hist : List (RId × Nat)) (s : ArbRun) (rid : RId) (i : Nat)
    (hinv : ArbInv hist s) : ArbInv hist (stepOp s (.releaseOp rid i)) := by
  match hr : removeFirst s.arb.queue rid i with
  | none =>
    have hstep : stepOp s (.releaseOp rid i) = ⟨s.arb, s.trace ++ []⟩ := by
      simp [stepOp, Arbitrator.release, hr]
    rw [hstep, List.append_nil]
    exact ⟨hinv.blocked, hinv.qsorted, hinv.above, hinv.tsorted, hinv.qhist, hinv.thist⟩
  | some r =>
    obtain ⟨⟨pre, post, hsplit, hrem⟩, _, _⟩ := removeFirst_split _ _ _ _ hr
    have hsub : r.2.Sublist s.arb.queue := by
      rw [hsplit, hrem]
      exact (List.sublist_cons_self r.1 post).append_left pre
    have hstep : stepOp s (.releaseOp rid i)
        = ⟨(Arbitrator.request ⟨r.2, s.arb.slots + 1⟩).1,
           s.trace ++ (Arbitrator.request ⟨r.2, s.arb.slots + 1⟩).2⟩ := by
      simp [stepOp, Arbitrator.release, hr]
    rw [hstep]
    apply request_inv hist ⟨r.2, s.arb.slots + 1⟩ s.trace
    · exact List.Pairwise.sublist hsub hinv.blocked
    · exact PeerSorted.sublist _ _ (hsub.map TimedChunk.pair) hinv.qsorted
    · intro e he hf p hp hrp
      exact hinv.above e (hsub.subset he) hf p hp hrp
    · exact hinv.tsorted
    · intro p hp
      exact hinv.qhist p ((hsub.map TimedChunk.pair).subset hp)
    · exact hinv.thist

/-- Check that the queued index of every `queue` operation lies strictly
above every index previously queued for the same peer: the shape of a
retry-free run, where each File seeds its chunks in increasing index
order. -/
def incrOps : List (RId × Nat) → List Op → Bool
  | _, [] => true
  | hist, .queueOp rid i :: rest =>
    hist.all (fun p => !(decide (p.1 = rid)) || decide (p.2 < i))
      && incrOps ((rid, i) :: hist) rest
  | hist, .releaseOp _ _ :: rest => incrOps hist rest

/-- Any retry-free run from an invariant state ends with a per-peer
strictly increasing trace. -/
theorem incr_run (ops : List Op) :
    ∀ (hist : List (RId × Nat)) (s : ArbRun),
    ArbInv hist s → incrOps hist ops = true →
    PeerSorted (runOps s ops).trace := by
  induction ops with
  | nil =>
    intro hist s hinv _
    exact hinv.tsorted
  | cons op rest ih =>
    intro hist s hinv hops
    match op with
    | .queueOp rid i =>
      rw [incrOps, Bool.and_eq_true] at hops
      obtain ⟨hall, hrest⟩ := hops
      have hnew : ∀ p ∈ hist, p.1 = rid → p.2 < i := by
        intro p hp hrp
        have h3 := List.all_eq_true.1 hall p hp
        simpa [hrp] using h3
      exact ih ((rid, i) :: hist) _ (step_queue hist s rid i hinv hnew) hrest
    | .releaseOp rid i =>
      rw [incrOps] at hops
      exact ih hist _ (step_release hist s rid i hinv) hops

/-- C8: in every run from initialization in which the queued indices of
each peer strictly increase (no retry re-queues an index), the `CHUNK`
pull frames the arbitrator emits on the router socket carry strictly
increasing chunk indices per peer — the FIFO walk admits each not-yet-
started entry at most once, in insertion order, only while the slot
counter is positive. -/
theorem arbitrator_pull_order (max : Nat) (ops : List Op)
    (h : incrOps [] ops = true) (rid : RId) :
    List.Pairwise (· < ·) (perPeer rid (runOps (arbInit max) ops).trace) := by
  refine incr_run ops [] (arbInit max) ?_ h rid
  refine ⟨List.Pairwise.nil, ?_, ?_, ?_, ?_, ?_⟩
  · intro r
    exact List.Pairwise.nil
  · intro c hc
    exact absurd hc (List.not_mem_nil c)
  · intro r
    exact List.Pairwise.nil
  · intro p hp
    exact absurd hp (List.not_mem_nil p)
  · intro p hp
    exact absurd hp (List.not_mem_nil p)

/-- C8 witness: one slot, two chunks queued for peer `[97]` and one for
peer `[98]`, with a release in between; the trace for `[97]` is strictly
increasing. -/
theorem arbitrator_pull_order_witness :
    incrOps [] [Op.queueOp [97] 0, Op.queueOp [97] 1, Op.releaseOp [97] 0,
        Op.queueOp [98] 5] = true ∧
    List.Pairwise (· < ·) (perPeer [97]
      (runOps (arbInit 1) [Op.queueOp [97] 0, Op.queueOp [97] 1,
        Op.releaseOp [97] 0, Op.queueOp [98] 5]).trace) :=
  ⟨by decide,
   arbitrator_pull_order 1 [Op.queueOp [97] 0, Op.queueOp [97] 1,
     Op.releaseOp [97] 0, Op.queueOp [98] 5] (by decide) [97]⟩

/-! ## File (`src/file.rs`) and a small filesystem

Paths are flat strings, the filesystem an association list from path to
byte content.  The open staging handle `fh` of a receiving `File` is
modelled by the content stored at `upload_path`. -/

/-- `const MAX_CHUNK_ERR: u8 = 5`. -/
def MAX_CHUNK_ERR : Nat := 5

/-- `struct FileOptions` of `src/file.rs`. -/
structure FileOptions where
  backup_existing : Option String
  chunk_size : Option Nat
deriving DecidableEq

/-- Receiver-side `struct File`: the chunk map is reduced to its key set
`chunks` in insertion order (each `Chunk` value is determined by its index
and the shared staging handle). -/
structure File where
  path : String
  upload_path : String
  size : Nat
  crc : Nat
  chunks : List Nat
  chunk_error_cnt : Nat
  chunk_size : Nat
  options : FileOptions
deriving DecidableEq

/-- `File::is_complete`: `self.chunks.len() == 0`. -/
def File.is_complete (f : File) : Bool :=
  f.chunks.length == 0

/-- `File::is_error`: `self.chunk_error_cnt >= MAX_CHUNK_ERR`. -/
def File.is_error (f : File) : Bool :=
  decide (MAX_CHUNK_ERR ≤ f.chunk_error_cnt)

/-- A filesystem: existing paths with their byte contents. -/
abbrev Fs := List (String × List Nat)

/-- Content at a path, if the path exists. -/
def fsGet (fs : Fs) (p : String) : Option (List Nat) :=
  (fs.find? (fun e => decide (e.1 = p))).map (fun e => e.2)

/-- Delete a path. -/
def fsRemove (fs : Fs) (p : String) : Fs :=
  fs.filter (fun e => !(decide (e.1 = p)))

/-- Create or overwrite a path. -/
def fsInsert (fs : Fs) (p : String) (c : List Nat) : Fs :=
  (p, c) :: fsRemove fs p

/-- `std::fs::rename`: fails with an IO error when the source does not
exist; otherwise moves the content, replacing any destination. -/
def fsRename (fs : Fs) (src dst : String) : Except Error Fs :=
  match fsGet fs src with
  | none => .error .Io
  | some c => .ok (fsInsert (fsRemove fs src) dst c)

/-- `File::save` (`src/file.rs`): recompute the checksum of the staging
file through the open handle and compare; on mismatch fail with
`FailChecksum`.  The backup guard of the source is
`self.options.backup_existing.is_some() && self.fh.borrow().metadata().is_ok()`
— an `fstat` of the open STAGING handle, which succeeds while the handle
is live (modelled: the staging path is present); it does not consult the
committed path.  Then rename `committed -> committed ++ suffix` (built by
`set_file_name(file_name + suffix)`), then `staging -> committed`, each
propagating an IO failure via `try!`. -/
def File.save (f : File) (fs : Fs) : Except Error Unit × Fs :=
  match fsGet fs f.upload_path with
  | none => (.error .Io, fs)
  | some content =>
    if f.crc ≠ calc_crc 1024 content then (.error .FailChecksum, fs)
    else
      if f.options.backup_existing.isSome && (fsGet fs f.upload_path).isSome then
        match fsRename fs f.path (f.path ++ f.options.backup_existing.getD "") with
        | .error e => (.error e, fs)
        | .ok fs1 =>
          match fsRename fs1 f.upload_path f.path with
          | .error e => (.error e, fs1)
          | .ok fs2 => (.ok (), fs2)
      else
        match fsRename fs f.upload_path f.path with
        | .error e => (.error e, fs)
        | .ok fs2 => (.ok (), fs2)

/-- `File::sink` (`src/file.rs`): on success, look the chunk up (else
`ChunkIndex`), release it with the arbitrator (propagating its error
before the map is touched), then remove it from the map; on failure with
an unsaturated counter, look the chunk up, re-queue it and increment the
counter; on failure with a saturated counter, do nothing. -/
def File.sink (f : File) (arb : Arbitrator) (rid : RId) (index : Nat) (success : Bool) :
    Except Error Unit × File × Arbitrator × List (RId × Nat) :=
  if success then
    if index ∈ f.chunks then
      match arb.release rid index with
      | (.error e, a2, em) => (.error e, f, a2, em)
      | (.ok _, a2, em) => (.ok (), { f with chunks := f.chunks.erase index }, a2, em)
    else (.error .ChunkIndex, f, arb, [])
  else if f.chunk_error_cnt < MAX_CHUNK_ERR then
    if index ∈ f.chunks then
      let r := arb.queueOp rid index
      (.ok (), { f with chunk_error_cnt := f.chunk_error_cnt + 1 }, r.1, r.2)
    else (.error .ChunkIndex, f, arb, [])
  else (.ok (), f, arb, [])

/-- C9: when the recomputed CRC of the staging file differs from the
expected one, `File::save` returns `FailChecksum` and performs no rename:
the filesystem is unchanged, so the staging file is still at the staging
path and the committed path holds whatever it held. -/
theorem save_checksum_mismatch (f : File) (fs : Fs) (content : List Nat)
    (hget : fsGet fs f.upload_path = some content)
    (hne : f.crc ≠ calc_crc 1024 content) :
    f.save fs = (.error .FailChecksum, fs) := by
  unfold File.save
  rw [hget]
  simp [hne]

/-- C9 witness: expected CRC 1 against an empty staging file whose CRC is
0: `save` fails with `FailChecksum` and leaves the filesystem alone. -/
theorem save_checksum_mismatch_witness :
    fsGet [(".f0", [])] ((⟨"f", ".f0", 0, 1, [], 0, 1024, ⟨none, none⟩⟩ : File).upload_path)
        = some [] ∧
    (⟨"f", ".f0", 0, 1, [], 0, 1024, ⟨none, none⟩⟩ : File).crc ≠ calc_crc 1024 [] ∧
    File.save ⟨"f", ".f0", 0, 1, [], 0, 1024, ⟨none, none⟩⟩ [(".f0", [])]
      = (.error .FailChecksum, [(".f0", [])]) :=
  ⟨by decide, by decide,
   save_checksum_mismatch ⟨"f", ".f0", 0, 1, [], 0, 1024, ⟨none, none⟩⟩
     [(".f0", [])] [] (by decide) (by decide)⟩

/-- C5: the claim says the backup rename happens iff `backup_existing` is
set AND a file exists at the committed path, and that with the option set
but no committed file the commit still succeeds.  The source instead
guards on `self.fh.borrow().metadata().is_ok()` — the staging handle, not
the committed path — so with `backup_existing = Some(".bk")`, a matching
checksum and NO file at the committed path it still attempts
`rename(committed, committed + suffix)`, which fails with an IO error:
`save` aborts, the commit rename never happens and the filesystem is left
unchanged.  The same state with the option unset commits fine. -/
theorem save_backup_checks_wrong_file :
    File.save ⟨"f", ".f0", 0, 0, [], 0, 1024, ⟨some ".bk", none⟩⟩ [(".f0", [])]
      = (.error .Io, [(".f0", [])]) ∧
    fsGet [(".f0", [])] "f" = none ∧
    File.save ⟨"f", ".f0", 0, 0, [], 0, 1024, ⟨none, none⟩⟩ [(".f0", [])]
      = (.ok (), [("f", [])]) :=
  ⟨rfl, rfl, rfl⟩

/-! ## Server (`src/server.rs`) -/

/-- The file table `HashMap<Vec<u8>, File>`, as an association list. -/
abbrev Files := List (RId × File)

/-- Table lookup (`files.get`). -/
def filesGet (files : Files) (rid : RId) : Option File :=
  (files.find? (fun e => decide (e.1 = rid))).map (fun e => e.2)

/-- In-place mutation of an existing entry (`files.get_mut`). -/
def filesSet (files : Files) (rid : RId) (f : File) : Files :=
  files.map (fun e => if e.1 = rid then (rid, f) else e)

/-- `files.contains_key`. -/
def filesContains (files : Files) (rid : RId) : Bool :=
  (filesGet files rid).isSome

/-- `files.insert`: replace an existing entry or append a new one. -/
def filesInsert (files : Files) (rid : RId) (f : File) : Files :=
  if filesContains files rid then filesSet files rid f else files ++ [(rid, f)]

/-- Server state: the file table, the arbitrator, and the filesystem the
staging and committed files live in. -/
structure ServerSt where
  files : Files
  arb : Arbitrator
  fs : Fs
deriving DecidableEq

/-- Result of one `Server::recv` call on the sink socket: `Ok(())`, or an
error propagated to the caller (the zdaemon event loop). -/
inductive SinkOutcome where
  | ok
  | fatal (e : Error)
deriving DecidableEq

/-- The sink branch of `Server::recv` (`src/server.rs` lines 134-165).
Input: the leading router-id frame and the two payload frames
(index, "1"/"0").  Output: the outcome, the new state, the messages sent
to the router socket for peers (peer, frames), and the pull frames the
arbitrator emitted.  In the `is_error()` branch the source builds
`ZMsg::new_err(&Error::FileFail.into())` but DISCARDS it (the `try!`
result is not bound); it then pushes the router id onto `msg` — the sink
message whose two frames were already popped — and sends that, so the
peer-addressed message carries no frames at all. -/
def Server.recvSink (st : ServerSt) (rid : RId) (index : Nat) (flag : String) :
    SinkOutcome × ServerSt × List (RId × List String) × List (RId × Nat) :=
  match filesGet st.files rid with
  | none => (.fatal .InvalidRequest, st, [], [])
  | some f =>
    let success := flag == "1"
    match File.sink f st.arb rid index success with
    | (.error e, f2, a2, em) =>
      (.fatal e, { st with files := filesSet st.files rid f2, arb := a2 }, [], em)
    | (.ok _, f2, a2, em) =>
      let st2 : ServerSt := { st with files := filesSet st.files rid f2, arb := a2 }
      if f2.is_error then
        (.ok, st2, [(rid, [])], em)
      else if f2.is_complete then
        match File.save f2 st2.fs with
        | (.ok _, fs2) => (.ok, { st2 with fs := fs2 }, [(rid, ["Ok"])], em)
        | (.error e, fs2) => (.ok, { st2 with fs := fs2 }, [(rid, ["Err", e.message])], em)
      else (.ok, st2, [], em)

/-- C2: the claim says that when a sink completion leaves a File with
`is_error()` true, the reactor emits `Err | "Failed to upload file"` to
the peer.  Evaluating the embedded sink branch at a failing input — a
1-chunk file at error count 4 receiving its fifth failure completion —
shows the peer instead receives a message with NO frames: the constructed
FileFail reply (whose message is indeed "Failed to upload file") is
discarded, and the spent sink message is sent in its place. -/
theorem sink_error_reply_is_empty :
    (Server.recvSink
        ⟨[([97], ⟨"f", ".f0", 1, 0, [0], 4, 1, ⟨none, none⟩⟩)], ⟨[], 0⟩, []⟩
        [97] 0 "0").2.2.1 = [([97], [])] ∧
    (Server.recvSink
        ⟨[([97], ⟨"f", ".f0", 1, 0, [0], 4, 1, ⟨none, none⟩⟩)], ⟨[], 0⟩, []⟩
        [97] 0 "0").1 = .ok ∧
    Error.message .FileFail = "Failed to upload file" := by
  refine ⟨by decide, by decide, rfl⟩

/-- `filesGet` on a cons. -/
theorem filesGet_cons (p : RId × File) (files : Files) (rid : RId) :
    filesGet (p :: files) rid
      = if p.1 = rid then some p.2 else filesGet files rid := by
  by_cases h : p.1 = rid <;> simp [filesGet, List.find?, h]

/-- `filesSet` never adds or removes a key. -/
theorem filesContains_filesSet (files : Files) (rid r : RId) (f : File) :
    filesContains (filesSet files rid f) r = filesContains files r := by
  induction files with
  | nil => rfl
  | cons p rest ih =>
    show filesContains ((if p.1 = rid then (rid, f) else p) :: filesSet rest rid f) r
        = filesContains (p :: rest) r
    by_cases hp : p.1 = rid
    · rw [if_pos hp]
      rw [filesContains, filesGet_cons, filesContains, filesGet_cons, hp]
      by_cases hr : rid = r
      · rw [if_pos hr, if_pos hr]
        rfl
      · rw [if_neg hr, if_neg hr]
        exact ih
    · rw [if_neg hp]
      rw [filesContains, filesGet_cons, filesContains, filesGet_cons]
      by_cases hr : p.1 = r
      · rw [if_pos hr, if_pos hr]
      · rw [if_neg hr, if_neg hr]
        exact ih

/-- C3, counterexample: a concrete session whose final chunk completes;
the reactor sends the terminal `Ok` reply, yet the peer's entry is still
in the file table afterwards — it is not destroyed. -/
theorem terminal_reply_keeps_file_cex :
    (Server.recvSink
        ⟨[([97], ⟨"f", ".f0", 1, 0, [0], 0, 1, ⟨none, none⟩⟩)],
         ⟨[⟨[97], 0, true⟩], 0⟩, [(".f0", [])]⟩
        [97] 0 "1").2.2.1 = [([97], ["Ok"])] ∧
    filesContains ((Server.recvSink
        ⟨[([97], ⟨"f", ".f0", 1, 0, [0], 0, 1, ⟨none, none⟩⟩)],
         ⟨[⟨[97], 0, true⟩], 0⟩, [(".f0", [])]⟩
        [97] 0 "1").2.1).files [97] = true := by
  refine ⟨by decide, by decide⟩

/-- C3, amended: the sink branch of `Server::recv` never removes an entry
from the file table — also after it sends a terminal `Ok` or `Err` reply
the peer's File stays in the table, so a later frame for that peer finds
the old File (the code has no `files.remove` at all). -/
theorem sink_preserves_file_table (st : ServerSt) (rid : RId) (index : Nat)
    (flag : String) (r : RId) :
    filesContains ((Server.recvSink st rid index flag).2.1).files r
      = filesContains st.files r := by
  unfold Server.recvSink
  match hg : filesGet st.files rid with
  | none => rfl
  | some f =>
    simp only
    match hs : File.sink f st.arb rid index (flag == "1") with
    | (.error e, f2, a2, em) =>
      simp only
      exact filesContains_filesSet st.files rid r f2
    | (.ok u, f2, a2, em) =>
      simp only
      by_cases he : f2.is_error
      · rw [if_pos he]
        exact filesContains_filesSet st.files rid r f2
      · rw [if_neg he]
        by_cases hc : f2.is_complete
        · rw [if_pos hc]
          match File.save f2 st.fs with
          | (.ok _, fs2) => exact filesContains_filesSet st.files rid r f2
          | (.error e, fs2) => exact filesContains_filesSet st.files rid r f2
        · rw [if_neg hc]
          exact filesContains_filesSet st.files rid r f2

/-! ## Chunk construction (`File::create_file`, `src/file.rs` lines 144-155)

`let mut size_ctr = size as i64; while size_ctr > 0 { queue; insert;
index += 1; size_ctr -= chunk_size as i64 }` — with `u64 as i64` casts
and wrap-around on the i64 subtraction. -/

/-- The `u64 as i64` cast. -/
def toI64 (n : Nat) : Int :=
  if n < 2 ^ 63 then (n : Int) else (n : Int) - 2 ^ 64

/-- Wrap of an i64 arithmetic result (release-mode overflow semantics). -/
def wrap64 (x : Int) : Int :=
  (x + 2 ^ 63) % 2 ^ 64 - 2 ^ 63

/-- `wrap64` is the identity on in-range values. -/
theorem wrap64_eq_self (x : Int) (h1 : -(2 ^ 63) ≤ x) (h2 : x < 2 ^ 63) :
    wrap64 x = x := by
  unfold wrap64
  rw [Int.emod_eq_of_lt (by omega) (by omega)]
  omega

/-- The chunk loop of `File::create_file`: starting from counter `ctr` and
chunk index `index`, construct a chunk, queue it with the arbitrator
(which may emit pulls), record its index, and decrement the counter by
the cast chunk size.  `fuel` bounds the number of iterations only to make
the recursion structural; `none` means the given fuel does not suffice —
`(∀ fuel, ... = none)` is the loop running forever. -/
def create_chunks_queue (rid : RId) (csz : Int) :
    Nat → Int → Nat → Arbitrator → Option (List Nat × Arbitrator × List (RId × Nat))
  | fuel, ctr, index, arb =>
    if 0 < ctr then
      match fuel with
      | 0 => none
      | fuel + 1 =>
        let r := arb.queueOp rid index
        match create_chunks_queue rid csz fuel (wrap64 (ctr - csz)) (index + 1) r.1 with
        | none => none
        | some s => some (index :: s.1, s.2.1, r.2 ++ s.2.2)
    else some ([], arb, [])

/-- A non-positive counter ends the loop immediately, whatever the fuel. -/
theorem ccq_nonpos (rid : RId) (csz : Int) (fuel : Nat) (ctr : Int) (idx : Nat)
    (arb : Arbitrator) (h : ¬ 0 < ctr) :
    create_chunks_queue rid csz fuel ctr idx arb = some ([], arb, []) := by
  match fuel with
  | 0 =>
    rw [create_chunks_queue, if_neg h]
  | f + 1 =>
    rw [create_chunks_queue, if_neg h]

/-- With a positive cast chunk size the counter strictly decreases, so
fuel `ctr` suffices. -/
theorem ccq_halts_small (rid : RId) (csz : Int) (h1 : 0 < csz) (h2 : csz < 2 ^ 63) :
    ∀ (fuel : Nat) (ctr : Int), ctr ≤ fuel → ctr < 2 ^ 63 →
    ∀ (idx : Nat) (arb : Arbitrator),
    (create_chunks_queue rid csz fuel ctr idx arb).isSome = true := by
  intro fuel
  induction fuel with
  | zero =>
    intro ctr hle _ idx arb
    rw [create_chunks_queue]
    rw [if_neg (by omega)]
    rfl
  | succ f ih =>
    intro ctr hle hlt idx arb
    rw [create_chunks_queue]
    by_cases hpos : 0 < ctr
    · rw [if_pos hpos]
      simp only
      have hwrap : wrap64 (ctr - csz) = ctr - csz :=
        wrap64_eq_self _ (by omega) (by omega)
      rw [hwrap]
      have hrec := ih (ctr - csz) (by push_cast at hle; omega) (by omega)
        (idx + 1) (Arbitrator.queueOp arb rid idx).1
      match hm : create_chunks_queue rid csz f (ctr - csz) (idx + 1)
          (Arbitrator.queueOp arb rid idx).1 with
      | none => rw [hm] at hrec; exact absurd hrec (by simp)
      | some s => simp
    · rw [if_neg hpos]
      rfl

/-- With a negative cast chunk size (`chunk_size ≥ 2^63`) the counter
climbs by `-csz` per step until it wraps negative, so enough fuel also
halts the loop. -/
theorem ccq_halts_negative (rid : RId) (csz : Int) (h1 : csz < 0) (h2 : -(2 ^ 63) ≤ csz) :
    ∀ (fuel : Nat) (ctr : Int), ctr < 2 ^ 63 → (2 ^ 63 : Int) ≤ ctr + fuel * (-csz) →
    ∀ (idx : Nat) (arb : Arbitrator),
    (create_chunks_queue rid csz fuel ctr idx arb).isSome = true := by
  intro fuel
  induction fuel with
  | zero =>
    intro ctr hlt hfuel idx arb
    rw [create_chunks_queue]
    rw [if_neg (by push_cast at hfuel; omega)]
    rfl
  | succ f ih =>
    intro ctr hlt hfuel idx arb
    rw [create_chunks_queue]
    by_cases hpos : 0 < ctr
    · rw [if_pos hpos]
      simp only
      by_cases hbig : ctr - csz < 2 ^ 63
      · have hwrap : wrap64 (ctr - csz) = ctr - csz :=
          wrap64_eq_self _ (by omega) hbig
        rw [hwrap]
        have hlin : ctr + ((f : Int) + 1) * -csz = ctr - csz + (f : Int) * -csz := by
          ring
        have hfuel2 : (2 : Int) ^ 63 ≤ ctr + ((f : Int) + 1) * -csz := by
          push_cast at hfuel
          exact hfuel
        have hrec := ih (ctr - csz) hbig (by linarith) (idx + 1)
          (Arbitrator.queueOp arb rid idx).1
        match hm : create_chunks_queue rid csz f (ctr - csz) (idx + 1)
            (Arbitrator.queueOp arb rid idx).1 with
        | none => rw [hm] at hrec; exact absurd hrec (by simp)
        | some s => simp
      · have hwrap : wrap64 (ctr - csz) = ctr - csz - 2 ^ 64 := by
          unfold wrap64
          rw [show ctr - csz + 2 ^ 63 = (ctr - csz + 2 ^ 63 - 2 ^ 64) + 1 * 2 ^ 64 by ring]
          rw [Int.add_mul_emod_self]
          rw [Int.emod_eq_of_lt (by omega) (by omega)]
          omega
        rw [hwrap]
        rw [ccq_nonpos rid csz f (ctr - csz - 2 ^ 64) (idx + 1)
          (Arbitrator.queueOp arb rid idx).1 (by omega)]
        simp
    · rw [if_neg hpos]
      rfl

/-- With cast chunk size zero and a positive counter, no fuel suffices:
the loop never terminates. -/
theorem ccq_diverges_zero (rid : RId) :
    ∀ (fuel : Nat) (ctr : Int), 0 < ctr → ctr < 2 ^ 63 →
    ∀ (idx : Nat) (arb : Arbitrator),
    create_chunks_queue rid 0 fuel ctr idx arb = none := by
  intro fuel
  induction fuel with
  | zero =>
    intro ctr hpos _ idx arb
    rw [create_chunks_queue, if_pos hpos]
  | succ f ih =>
    intro ctr hpos hlt idx arb
    rw [create_chunks_queue, if_pos hpos]
    simp only
    have hwrap : wrap64 (ctr - 0) = ctr := by
      rw [show ctr - 0 = ctr by ring]
      exact wrap64_eq_self ctr (by omega) hlt
    rw [hwrap]
    rw [ih ctr hpos hlt (idx + 1) _]

/-! ## Router branch of `Server::recv` (`src/server.rs` lines 62-132) -/

/-- A wire frame as `ZFrame::data()` sees it: valid UTF-8 (`Ok(String)`)
or raw bytes (`Err(Vec<u8>)`). -/
inductive Frame where
  | str (s : String)
  | bin (b : List Nat)
deriving DecidableEq

/-- Rust `str::parse::<u64>`: an optional leading plus sign, then one or
more decimal digits, value below `2^64`. -/
def parseU64 (s : String) : Option Nat :=
  let cs :=
    match s.toList with
    | '+' :: rest => rest
    | l => l
  if cs = [] then none
  else if cs.all (fun c => c.isDigit) then
    let v := cs.foldl (fun a c => a * 10 + (c.toNat - 48)) 0
    if v < 2 ^ 64 then some v else none
  else none

/-- `File::temporary_filename`: `".{name}{counter}"` for the smallest
`u16` counter whose path does not exist.  If all 65536 names are taken
the source increments the counter past `u16::MAX` (a panic in debug
builds, an endless loop in release builds): modelled as `none`, the call
does not return. -/
def temporary_filename (fs : Fs) (path : String) : Option String :=
  ((List.range 65536).find?
      (fun k => (fsGet fs ("." ++ path ++ toString k)).isNone)).map
    (fun k => "." ++ path ++ toString k)

/-- `File::create` followed by `File::create_file` (`src/file.rs`): pick
the staging name, create the staging file pre-extended to `size` zero
bytes, run the chunk loop (queueing every chunk with the arbitrator),
then decode the options blob — `decode` stands for the external
`rustc_serialize` JSON decoder.  `none` propagates a non-terminating
chunk loop (or staging-name search); a decode failure is returned after
the arbitrator was already seeded and the staging file created. -/
def File.create (decode : String → Except Error FileOptions) (fuel : Nat)
    (arb : Arbitrator) (fs : Fs) (rid : RId) (path : String)
    (size crc chunk_size : Nat) (options : String) :
    Option (Except Error File × Arbitrator × Fs × List (RId × Nat)) :=
  match temporary_filename fs path with
  | none => none
  | some upath =>
    let fs1 := fsInsert fs upath (List.replicate size 0)
    match create_chunks_queue rid (toI64 chunk_size) fuel (toI64 size) 0 arb with
    | none => none
    | some r =>
      match decode options with
      | .error e => some (.error e, r.2.1, fs1, r.2.2)
      | .ok opts =>
        some (.ok ⟨path, upath, size, crc, r.1, 0, chunk_size, opts⟩, r.2.1, fs1, r.2.2)

/-- Result of one `Server::recv` call on the router socket: `Ok(())`, an
`Error` propagated to the event loop (the `_ => return Err(...)` arm), a
transport-layer failure from `expect_recv` (wrong frame count), or a
non-returning call. -/
inductive RouterOutcome where
  | ok
  | fatal (e : Error)
  | fatalTransport
  | diverged
deriving DecidableEq

/-- `Server::reply_err`: the message `Err | <display of e>` addressed to
the peer (`ZMsg::new_err` plus `pushbytes(router_id)`). -/
def errReply (rid : RId) (e : Error) : RId × List String :=
  (rid, ["Err", e.message])

/-- The `"NEW"` arm of the router branch: `expect_recv` of exactly 5
frames (anything else is a transport error propagated by `try!`), parse
`path, size, crc, chunk_size, options` — any binary frame or failed
number parse is replied to the peer as `Err InvalidRequest` — then
`File::create`, replying its error or inserting the File under the
router id. -/
def Server.recvRouterNew (decode : String → Except Error FileOptions) (fuel : Nat)
    (st : ServerSt) (rid : RId) (frames : List Frame) :
    RouterOutcome × ServerSt × List (RId × List String) × List (RId × Nat) :=
  match frames with
  | [pf, sf, cf, zf, of] =>
    match pf with
    | .bin _ => (.ok, st, [errReply rid .InvalidRequest], [])
    | .str path =>
      match sf with
      | .bin _ => (.ok, st, [errReply rid .InvalidRequest], [])
      | .str ss =>
        match parseU64 ss with
        | none => (.ok, st, [errReply rid .InvalidRequest], [])
        | some size =>
          match cf with
          | .bin _ => (.ok, st, [errReply rid .InvalidRequest], [])
          | .str crcs =>
            match parseU64 crcs with
            | none => (.ok, st, [errReply rid .InvalidRequest], [])
            | some crc =>
              match zf with
              | .bin _ => (.ok, st, [errReply rid .InvalidRequest], [])
              | .str zs =>
                match parseU64 zs with
                | none => (.ok, st, [errReply rid .InvalidRequest], [])
                | some chunk_size =>
                  match of with
                  | .bin _ => (.ok, st, [errReply rid .InvalidRequest], [])
                  | .str opts =>
                    match File.create decode fuel st.arb st.fs rid path
                        size crc chunk_size opts with
                    | none => (.diverged, st, [], [])
                    | some (.error e, a2, fs2, em) =>
                      (.ok, { st with arb := a2, fs := fs2 },
                       [errReply rid e], em)
                    | some (.ok f, a2, fs2, em) =>
                      (.ok, ⟨filesInsert st.files rid f, a2, fs2⟩, [], em)
  | _ => (.fatalTransport, st, [], [])

/-- The `"CHUNK"` arm of the router branch: an unknown peer is replied
`Err InvalidRequest`; then `expect_recv` of exactly 2 frames, index parse
(failure replied to the peer), and `File::recv`, whose `ChunkIndex`
error is replied to the peer (a successful delegation schedules the
chunk write off-reactor). -/
def Server.recvRouterChunk (st : ServerSt) (rid : RId) (frames : List Frame) :
    RouterOutcome × ServerSt × List (RId × List String) × List (RId × Nat) :=
  if filesContains st.files rid = false then
    (.ok, st, [errReply rid .InvalidRequest], [])
  else
    match frames with
    | [ixf, _df] =>
      match ixf with
      | .bin _ => (.ok, st, [errReply rid .InvalidRequest], [])
      | .str ixs =>
        match parseU64 ixs with
        | none => (.ok, st, [errReply rid .InvalidRequest], [])
        | some index =>
          match filesGet st.files rid with
          | none => (.fatal .InvalidRequest, st, [], [])
          | some f =>
            if index ∈ f.chunks then (.ok, st, [], [])
            else (.ok, st, [errReply rid .ChunkIndex], [])
    | _ => (.fatalTransport, st, [], [])

/-- The router branch of `Server::recv`: dispatch on the action frame.
A binary action frame falls through the `if let Ok(action)` silently;
`"NEW"` and `"CHUNK"` go to their arms; any other string action returns
`Err(InvalidRequest)` from `recv` itself — no reply is sent to the
peer. -/
def Server.recvRouter (decode : String → Except Error FileOptions) (fuel : Nat)
    (st : ServerSt) (rid : RId) (action : Frame) (frames : List Frame) :
    RouterOutcome × ServerSt × List (RId × List String) × List (RId × Nat) :=
  match action with
  | .bin _ => (.ok, st, [], [])
  | .str a =>
    if a = "NEW" then Server.recvRouterNew decode fuel st rid frames
    else if a = "CHUNK" then Server.recvRouterChunk st rid frames
    else (.fatal .InvalidRequest, st, [], [])

/-- C10, counterexample: an action frame `"FOO"` makes `Server::recv`
return the `InvalidRequest` error to its caller with NO reply sent to the
peer — against the claim that the server replies `Err` to the peer and
`recv` completes without a fatal error. -/
theorem unknown_action_cex :
    Server.recvRouter (fun _ => Except.ok (⟨none, none⟩ : FileOptions)) 0
        ⟨[], ⟨[], 0⟩, []⟩ [97] (.str "FOO") []
      = (.fatal .InvalidRequest, ⟨[], ⟨[], 0⟩, []⟩, [], []) := rfl

/-- C10, amended: for any action string other than `"NEW"` and `"CHUNK"`,
the router branch of `Server::recv` sends nothing to any peer, leaves the
whole server state (and hence every other session) untouched, and returns
the `InvalidRequest` error to its caller — it does not reply
`Err` to the originating peer. -/
theorem unknown_action_fatal (decode : String → Except Error FileOptions)
    (fuel : Nat) (st : ServerSt) (rid : RId) (a : String) (frames : List Frame)
    (h1 : a ≠ "NEW") (h2 : a ≠ "CHUNK") :
    Server.recvRouter decode fuel st rid (.str a) frames
      = (.fatal .InvalidRequest, st, [], []) := by
  rw [Server.recvRouter]
  rw [if_neg h1, if_neg h2]

/-- C10 witness: the amended behaviour at the concrete action `"PING"`. -/
theorem unknown_action_fatal_witness :
    ("PING" : String) ≠ "NEW" ∧ ("PING" : String) ≠ "CHUNK" ∧
    Server.recvRouter (fun _ => Except.ok (⟨none, none⟩ : FileOptions)) 3
        ⟨[], ⟨[], 2⟩, []⟩ [98] (.str "PING") [.str "x"]
      = (.fatal .InvalidRequest, ⟨[], ⟨[], 2⟩, []⟩, [], []) :=
  ⟨by decide, by decide,
   unknown_action_fatal (fun _ => Except.ok (⟨none, none⟩ : FileOptions)) 3
     ⟨[], ⟨[], 2⟩, []⟩ [98] "PING" [.str "x"] (by decide) (by decide)⟩

/-- C6, counterexample: the claim says the chunk loop never terminates
when `chunk_size = 0` and `size > 0`; but at `size = 2^63 > 0` the
`u64 as i64` cast makes the counter negative, the loop body never runs
and the loop terminates at once with zero chunks. -/
theorem chunk_loop_zero_cex :
    create_chunks_queue [] (toI64 0) 1 (toI64 (2 ^ 63)) 0 ⟨[], 0⟩
      = some ([], ⟨[], 0⟩, []) ∧
    (0 : Nat) < 2 ^ 63 := by
  refine ⟨by decide, by decide⟩

/-- C6, amended: the chunk-construction loop of `File::create_file`
terminates for every `size < 2^64` whenever `chunk_size ≥ 1`; for
`chunk_size = 0` and `0 < size < 2^63` no amount of fuel makes it
terminate (for `size ≥ 2^63` the cast counter is non-positive and the
loop body never runs); and the server's NEW handler parses a
wire-supplied `chunk_size` of `"0"` and passes it into `File::create`
without rejecting it, so such a NEW frame makes `Server::recv`
non-terminating (outcome `diverged` for every fuel). -/
theorem chunk_loop_termination :
    (∀ (rid : RId) (arb : Arbitrator) (size csz : Nat),
      size < 2 ^ 64 → 1 ≤ csz → csz < 2 ^ 64 →
      ∃ fuel r, create_chunks_queue rid (toI64 csz) fuel (toI64 size) 0 arb
        = some r) ∧
    (∀ (rid : RId) (arb : Arbitrator) (size : Nat), 0 < size → size < 2 ^ 63 →
      ∀ fuel, create_chunks_queue rid (toI64 0) fuel (toI64 size) 0 arb = none) ∧
    (∀ (decode : String → Except Error FileOptions) (fuel : Nat) (st : ServerSt)
      (rid : RId) (p opts : String),
      (Server.recvRouter decode fuel st rid (.str "NEW")
        [.str p, .str "1", .str "0", .str "0", .str opts]).1 = .diverged) := by
  refine ⟨?_, ?_, ?_⟩
  · intro rid arb size csz hs hc1 hc2
    by_cases hbig : size < 2 ^ 63
    · have hsz : toI64 size = (size : Int) := by rw [toI64, if_pos hbig]
      by_cases hcs : csz < 2 ^ 63
      · have hcz : toI64 csz = (csz : Int) := by rw [toI64, if_pos hcs]
        refine ⟨size, ?_⟩
        have h := ccq_halts_small rid (toI64 csz)
          (by rw [hcz]; exact_mod_cast hc1)
          (by rw [hcz]; exact_mod_cast hcs)
          size (toI64 size)
          (by rw [hsz])
          (by rw [hsz]; exact_mod_cast hbig)
          0 arb
        exact Option.isSome_iff_exists.1 h
      · have hcz : toI64 csz = (csz : Int) - 2 ^ 64 := by
          rw [toI64, if_neg hcs]
        have hneg : toI64 csz < 0 := by
          rw [hcz]
          have : (csz : Int) < 2 ^ 64 := by exact_mod_cast hc2
          omega
        have hge : -(2 ^ 63 : Int) ≤ toI64 csz := by
          rw [hcz]
          have : (2 ^ 63 : Int) ≤ (csz : Int) := by
            have := Nat.le_of_not_lt hcs
            exact_mod_cast this
          omega
        refine ⟨2 ^ 63, ?_⟩
        have hone : (1 : Int) ≤ -(toI64 csz) := by omega
        have hmul : (2 ^ 63 : Int) * 1 ≤ (2 ^ 63 : Int) * -(toI64 csz) :=
          mul_le_mul_of_nonneg_left hone (by norm_num)
        have hfuel : (2 ^ 63 : Int) ≤ toI64 size + (2 ^ 63 : Nat) * -(toI64 csz) := by
          rw [hsz]
          have hnn : (0 : Int) ≤ (size : Int) := by positivity
          push_cast
          push_cast at hmul
          linarith
        have h := ccq_halts_negative rid (toI64 csz) hneg hge (2 ^ 63) (toI64 size)
          (by rw [hsz]; exact_mod_cast hbig) hfuel 0 arb
        exact Option.isSome_iff_exists.1 h
    · refine ⟨0, ([], arb, []), ?_⟩
      refine ccq_nonpos rid (toI64 csz) 0 (toI64 size) 0 arb ?_
      rw [toI64, if_neg hbig]
      have h1 : (size : Int) < 2 ^ 64 := by exact_mod_cast hs
      omega
  · intro rid arb size h0 hlt fuel
    have h1 : toI64 0 = 0 := by norm_num [toI64]
    have h2 : toI64 size = (size : Int) := by rw [toI64, if_pos hlt]
    rw [h1, h2]
    exact ccq_diverges_zero rid fuel (size : Int) (by exact_mod_cast h0)
      (by exact_mod_cast hlt) 0 arb
  · intro decode fuel st rid p opts
    have hs1 : parseU64 "1" = some 1 := by decide
    have hs0 : parseU64 "0" = some 0 := by decide
    rw [Server.recvRouter]
    rw [if_pos rfl]
    rw [Server.recvRouterNew]
    simp only [hs1, hs0]
    have hz : ∀ a2 : Arbitrator,
        create_chunks_queue rid (toI64 0) fuel (toI64 1) 0 a2 = none := by
      intro a2
      have h1 : toI64 0 = 0 := by norm_num [toI64]
      have h2 : toI64 1 = 1 := by norm_num [toI64]
      rw [h1, h2]
      exact ccq_diverges_zero rid fuel 1 (by norm_num) (by norm_num) 0 a2
    unfold File.create
    cases htmp : temporary_filename st.fs p with
    | none => rfl
    | some up =>
      rw [hz st.arb]

/-- C6 witness: concrete instances of all three conjuncts — termination
for `size 3, chunk_size 2`, divergence for `size 1, chunk_size 0` at
fuel 7, and the diverged outcome of the NEW handler at fuel 5. -/
theorem chunk_loop_termination_witness :
    ((3 : Nat) < 2 ^ 64 ∧ (1 : Nat) ≤ 2 ∧ (2 : Nat) < 2 ^ 64 ∧
     ∃ fuel r, create_chunks_queue [99] (toI64 2) fuel (toI64 3) 0 ⟨[], 0⟩
       = some r) ∧
    ((0 : Nat) < 1 ∧ (1 : Nat) < 2 ^ 63 ∧
     create_chunks_queue [99] (toI64 0) 7 (toI64 1) 0 ⟨[], 0⟩ = none) ∧
    (Server.recvRouter (fun _ => Except.ok (⟨none, none⟩ : FileOptions)) 5
        ⟨[], ⟨[], 1⟩, []⟩ [99] (.str "NEW")
        [.str "f", .str "1", .str "0", .str "0", .str "x"]).1 = .diverged :=
  ⟨⟨by decide, by decide, by decide,
    chunk_loop_termination.1 [99] ⟨[], 0⟩ 3 2 (by decide) (by decide) (by decide)⟩,
   ⟨by decide, by decide,
    chunk_loop_termination.2.1 [99] ⟨[], 0⟩ 1 (by decide) (by decide) 7⟩,
   chunk_loop_termination.2.2 (fun _ => Except.ok (⟨none, none⟩ : FileOptions)) 5
     ⟨[], ⟨[], 1⟩, []⟩ [99] "f" "x"⟩

/-- `queue` appends the new `(router_id, index)` pair to the queue shape
(the follow-up `request` only flips started flags). -/
theorem queueOp_shape (a : Arbitrator) (rid : RId) (i : Nat) :
    chunkPairs (a.queueOp rid i).1.queue = chunkPairs a.queue ++ [(rid, i)] := by
  have h := requestGo_shape (a.queue ++ [(⟨rid, i, false⟩ : TimedChunk)]) a.slots
  have h2 : chunkPairs (a.queueOp rid i).1.queue
      = chunkPairs (requestGo a.slots (a.queue ++ [(⟨rid, i, false⟩ : TimedChunk)])).2.1 :=
    rfl
  rw [h2, h]
  simp [chunkPairs, TimedChunk.pair]

/-- Exact characterisation of the chunk loop for in-range sizes and chunk
sizes: with fuel at least `n` it returns the chunk indices
`idx, idx+1, ..., idx + ceil(n/c) - 1` and appends exactly those pairs to
the arbitrator queue. -/
theorem ccq_spec (c : Nat) (hc : 0 < c) (hc2 : c < 2 ^ 63) :
    ∀ (fuel n : Nat), n < 2 ^ 63 → n ≤ fuel →
    ∀ (idx : Nat) (rid : RId) (arb : Arbitrator),
    ∃ arb2 em, create_chunks_queue rid (toI64 c) fuel (toI64 n) idx arb
        = some (List.range' idx ((n + c - 1) / c), arb2, em) ∧
      chunkPairs arb2.queue = chunkPairs arb.queue
        ++ (List.range' idx ((n + c - 1) / c)).map (fun i => (rid, i)) := by
  have hcz : toI64 c = (c : Int) := by rw [toI64, if_pos hc2]
  have hbase : ∀ (fuel idx : Nat) (rid : RId) (arb : Arbitrator),
      ∃ arb2 em, create_chunks_queue rid (toI64 c) fuel (toI64 0) idx arb
          = some (List.range' idx ((0 + c - 1) / c), arb2, em) ∧
        chunkPairs arb2.queue = chunkPairs arb.queue
          ++ (List.range' idx ((0 + c - 1) / c)).map (fun i => (rid, i)) := by
    intro fuel idx rid arb
    have hk : (0 + c - 1) / c = 0 := Nat.div_eq_of_lt (by omega)
    have h0 : toI64 0 = 0 := by norm_num [toI64]
    refine ⟨arb, [], ?_, ?_⟩
    · rw [h0, ccq_nonpos rid (toI64 c) fuel 0 idx arb (by omega), hk]
      rfl
    · rw [hk]
      simp
  intro fuel
  induction fuel with
  | zero =>
    intro n hn hle idx rid arb
    have hn0 : n = 0 := by omega
    subst hn0
    exact hbase 0 idx rid arb
  | succ f ih =>
    intro n hn hle idx rid arb
    by_cases hn0 : n = 0
    · subst hn0
      exact hbase (f + 1) idx rid arb
    · have hnz : toI64 n = (n : Int) := by rw [toI64, if_pos hn]
      rw [create_chunks_queue, hnz, hcz]
      rw [if_pos (by exact_mod_cast Nat.pos_of_ne_zero hn0)]
      simp only
      by_cases hnc : n ≤ c
      · have hwrap : wrap64 ((n : Int) - (c : Int)) = (n : Int) - c := by
          refine wrap64_eq_self _ ?_ ?_
          · have : (c : Int) < 2 ^ 63 := by exact_mod_cast hc2
            omega
          · have : (0 : Int) ≤ (n : Int) := by positivity
            have hcc : (0 : Int) < (c : Int) := by exact_mod_cast hc
            have hnn : (n : Int) < 2 ^ 63 := by exact_mod_cast hn
            omega
        rw [hwrap]
        rw [ccq_nonpos rid (c : Int) f ((n : Int) - c) (idx + 1)
          (Arbitrator.queueOp arb rid idx).1
          (by
            have : (n : Int) ≤ (c : Int) := by exact_mod_cast hnc
            omega)]
        have hk : (n + c - 1) / c = 1 := by
          rw [show n + c - 1 = (n - 1) + c by omega, Nat.add_div_right _ hc,
            Nat.div_eq_of_lt (by omega)]
        refine ⟨(Arbitrator.queueOp arb rid idx).1,
          (Arbitrator.queueOp arb rid idx).2 ++ [], ?_, ?_⟩
        · rw [hk]
          rfl
        · rw [hk, queueOp_shape]
          simp [List.range']
      · have hcn : c < n := Nat.lt_of_not_le (by omega)
        have hwrap : wrap64 ((n : Int) - (c : Int)) = ((n - c : Nat) : Int) := by
          have hcast : (n : Int) - c = ((n - c : Nat) : Int) := by
            omega
          rw [hcast]
          refine wrap64_eq_self _ ?_ ?_
          · omega
          · exact_mod_cast (by omega : n - c < 2 ^ 63)
        have htn : toI64 (n - c) = ((n - c : Nat) : Int) := by
          rw [toI64, if_pos (by omega)]
        rw [hwrap, ← htn]
        obtain ⟨arb2, em2, heq, hshape⟩ :=
          ih (n - c) (by omega) (by omega) (idx + 1) rid (Arbitrator.queueOp arb rid idx).1
        rw [hcz] at heq
        rw [heq]
        have hstep : (n + c - 1) / c = ((n - c) + c - 1) / c + 1 := by
          rw [show n + c - 1 = ((n - c) + c - 1) + c by omega, Nat.add_div_right _ hc]
        refine ⟨arb2, (Arbitrator.queueOp arb rid idx).2 ++ em2, ?_, ?_⟩
        · rw [hstep]
          rfl
        · rw [hshape, queueOp_shape, hstep]
          rw [List.append_assoc]
          congr 1

/-- C7, counterexample: at `size = 2^63` and `chunk_size = 1` the claim
asks for `ceil(2^63 / 1) = 2^63` pending chunks, but the `u64 as i64`
cast makes the loop counter non-positive and the constructed File holds
zero chunks (and is therefore complete immediately). -/
theorem chunk_count_cex :
    create_chunks_queue [] (toI64 1) 1 (toI64 (2 ^ 63)) 0 ⟨[], 0⟩
      = some ([], ⟨[], 0⟩, []) ∧
    ((2 ^ 63 : Nat) + 1 - 1) / 1 = 2 ^ 63 ∧ (2 ^ 63 : Nat) ≠ 0 := by
  refine ⟨by decide, by decide, by decide⟩

/-- C7, amended: for every `size n < 2^63` and `1 ≤ chunk_size c < 2^63`,
a File constructed for receiving holds exactly `ceil(n/c)` pending chunks
with indices `0 .. ceil(n/c) - 1`, each queued with the arbitrator during
construction (the queue gains exactly those `(router_id, index)` pairs in
order); for `n = 0` the chunk map is empty — and a File `is_complete`
iff its chunk map is empty. -/
theorem chunk_map_spec :
    (∀ (rid : RId) (arb : Arbitrator) (n c : Nat), 0 < c → c < 2 ^ 63 → n < 2 ^ 63 →
      ∃ arb2 em, create_chunks_queue rid (toI64 c) n (toI64 n) 0 arb
          = some (List.range ((n + c - 1) / c), arb2, em) ∧
        chunkPairs arb2.queue = chunkPairs arb.queue
          ++ (List.range ((n + c - 1) / c)).map (fun i => (rid, i))) ∧
    (∀ f : File, f.is_complete = true ↔ f.chunks = []) := by
  constructor
  · intro rid arb n c hc hc2 hn
    obtain ⟨arb2, em, heq, hsh⟩ := ccq_spec c hc hc2 n n hn (le_refl n) 0 rid arb
    rw [List.range_eq_range']
    exact ⟨arb2, em, heq, hsh⟩
  · intro f
    rw [File.is_complete]
    simp [List.length_eq_zero]

/-- C7 witness: `size 3, chunk_size 2` yields chunks `[0, 1]` queued in
order, and the empty-map/complete equivalence at a concrete File with
`n = 0`. -/
theorem chunk_map_spec_witness :
    ((0 : Nat) < 2 ∧ (2 : Nat) < 2 ^ 63 ∧ (3 : Nat) < 2 ^ 63 ∧
     ∃ arb2 em, create_chunks_queue [99] (toI64 2) 3 (toI64 3) 0 ⟨[], 1⟩
         = some (List.range ((3 + 2 - 1) / 2), arb2, em) ∧
       chunkPairs arb2.queue = chunkPairs (⟨[], 1⟩ : Arbitrator).queue
         ++ (List.range ((3 + 2 - 1) / 2)).map (fun i => ([99], i))) ∧
    ((⟨"f", ".f0", 0, 0, [], 0, 1, ⟨none, none⟩⟩ : File).is_complete = true
      ↔ (⟨"f", ".f0", 0, 0, [], 0, 1, ⟨none, none⟩⟩ : File).chunks = []) :=
  ⟨⟨by decide, by decide, by decide,
    chunk_map_spec.1 [99] ⟨[], 1⟩ 3 2 (by decide) (by decide) (by decide)⟩,
   chunk_map_spec.2 ⟨"f", ".f0", 0, 0, [], 0, 1, ⟨none, none⟩⟩⟩

end ZFilexfer
